import Mathlib

/-!
Verification development for the `smartdirs` directory-creation utility
(`smartdirs/core.py`).

The Python source is shallowly embedded:

* `create_dir` becomes `Smartdirs.createDir`, a pure state transformer over an
  explicit filesystem snapshot `Smartdirs.FS` (parent-directory existence, the
  list of sibling directory names inside the parent, and the optional log
  file's rows).
* Calls into external libraries are abstracted by an environment
  `Smartdirs.Env`: `pytz.timezone` validity becomes the oracle `isValidTz`,
  `tzlocal.get_localzone` becomes `localTz`, and `datetime.now(tz).strftime`
  at the (fixed) current instant becomes the oracle `strftime tz fmt`.
* The regular expression `^(?:(\d+){sep})?{re.escape(dir_base)}(?:{sep}(\d+))?$`
  that `create_dir` builds and applies with `re.match` is embedded as the
  executable matcher `Smartdirs.reMatch`.  The separator is spliced into the
  regex unescaped, so a separator character is interpreted as a regex atom:
  the embedding treats `'.'` as "any character except newline" and every
  other character as a literal, which is faithful for separators that contain
  no further regex metacharacters ; theorems that depend on the separator
  being matched literally carry that hypothesis explicitly.  `$` is modelled
  with Python's semantics: it matches at the end of the string and also just
  before one trailing newline.  `\d` is modelled as ASCII `0`-`9`, faithful
  on ASCII subject strings (Python's `\d` also matches non-ASCII Unicode
  decimal digits); theorems whose truth depends on the exact digit set carry
  an explicit all-ASCII hypothesis on the subject name.
-/

namespace Smartdirs

/-! ## The embedded regex matcher for the pattern built in `create_dir` -/

/-- Characters that are special (metacharacters) in a Python regular
expression.  `create_dir` splices the separator into its pattern without
escaping, so a separator containing one of these is not matched literally. -/
def isRegexSpecial (c : Char) : Bool :=
  c ∈ ['.', '\\', '(', ')', '[', ']', '\x7b', '\x7d', '*', '+', '?', '|', '^', '$']

/-- One separator pattern character matching one subject character: `'.'`
matches any character except a newline, any other character matches itself
(faithful when the character is not a regex metacharacter). -/
def sepCharMatches (p c : Char) : Bool :=
  if p = '.' then c ≠ '\n' else p = c

/-- Match the separator fragment of the pattern against the front of `s`,
returning the unconsumed remainder.  Each separator character consumes
exactly one subject character. -/
def consumeSep : List Char → List Char → Option (List Char)
  | [], s => some s
  | _ :: _, [] => none
  | p :: ps, c :: cs => if sepCharMatches p c then consumeSep ps cs else none

/-- Numeric value of a digit string, as Python's `int` computes it. -/
def digitsVal (l : List Char) : Nat :=
  l.foldl (fun a c => a * 10 + (c.toNat - '0'.toNat)) 0

/-- Python's `$` (without `re.MULTILINE`): it matches at the end of the
string, and also just before a newline that is the last character. -/
def dollarAt (l : List Char) : Bool :=
  l.isEmpty || l == ['\n']

/-- Match the tail `{re.escape(dir_base)}(?:{sep}(\d+))?$` of the pattern
against `s`, returning the suffix capture group when the match succeeds.
The optional group is tried first, as Python's backtracking does.  Inside it,
`\d+` is greedy; giving digits back cannot help, because the remainder would
then start with a digit, which `$` never accepts — so only the maximal digit
run is tried. -/
def matchTail (sep base s : List Char) : Option (Option Nat) :=
  if base.isPrefixOf s then
    match consumeSep sep (s.drop base.length) with
    | some r2 =>
        if !(r2.takeWhile Char.isDigit).isEmpty && dollarAt (r2.dropWhile Char.isDigit) then
          some (some (digitsVal (r2.takeWhile Char.isDigit)))
        else if dollarAt (s.drop base.length) then some none
        else none
    | none =>
        if dollarAt (s.drop base.length) then some none
        else none
  else none

/-- Backtracking over the optional greedy group `(?:(\d+){sep})?`: try taking
`k` digits for `\d+`, longest first, then fall back to omitting the group.
Returns `(prefix capture, suffix capture)` on success. -/
def tryPrefix (sep base name : List Char) : Nat → Option (Option Nat × Option Nat)
  | 0 => (matchTail sep base name).map (fun s => (none, s))
  | k + 1 =>
      match consumeSep sep (name.drop (k + 1)) with
      | some r =>
          match matchTail sep base r with
          | some s => some (some (digitsVal (name.take (k + 1))), s)
          | none => tryPrefix sep base name k
      | none => tryPrefix sep base name k

/-- Length of the maximal digit run at the front of `name`; `\d+` can take at
most this many characters. -/
def digitRunLen (name : List Char) : Nat :=
  (name.takeWhile Char.isDigit).length

/-- `re.match` of the pattern `^(?:(\d+){sep})?{re.escape(dir_base)}(?:{sep}(\d+))?$`
against `name`: `none` for no match, otherwise the two capture groups. -/
def reMatch (sep base name : List Char) : Option (Option Nat × Option Nat) :=
  tryPrefix sep base name (digitRunLen name)

/-! ## The scan over existing sibling directories -/

/-- One iteration of the loop over `existing_dirs`: update `(max_prefix,
max_suffix)` with `int(match.group(1) or 0)` and `int(match.group(2) or 0)`. -/
def scanStep (sep base : List Char) (acc : Nat × Nat) (d : List Char) : Nat × Nat :=
  match reMatch sep base d with
  | some (op, os) => (max acc.1 (op.getD 0), max acc.2 (os.getD 0))
  | none => acc

/-- The whole scan: `(max_prefix, max_suffix)` after folding over all existing
sibling directory names, both starting at `0`. -/
def scanMax (sep base : List Char) (dirs : List (List Char)) : Nat × Nat :=
  dirs.foldl (scanStep sep base) (0, 0)

/-- All numeric tags actually observed by the scan: for every sibling that
matches the pattern, the prefix capture and/or the suffix capture, when
present. -/
def observedNums (sep base : List Char) (dirs : List (List Char)) : List Nat :=
  dirs.foldr
    (fun d acc =>
      match reMatch sep base d with
      | some (op, os) => op.toList ++ os.toList ++ acc
      | none => acc)
    []

/-! ## Choosing the new directory name -/

/-- Decimal rendering of a number, as the f-string `f"{new_num}"` produces. -/
def natChars (n : Nat) : List Char :=
  (Nat.repr n).toList

/-- The `if prefix and not suffix / elif suffix and not prefix / elif prefix
and suffix / else` chain of `create_dir` choosing the new directory name. -/
def newDirName (pfx sfx : Bool) (sep base : List Char) (mp ms : Nat) : List Char :=
  if pfx && !sfx then natChars (mp + 1) ++ sep ++ base
  else if sfx && !pfx then base ++ sep ++ natChars (ms + 1)
  else if pfx && sfx then
    natChars (max mp ms + 1) ++ sep ++ base ++ sep ++ natChars (max mp ms + 1)
  else base

/-- The number the decision chain embeds into the name (meaningful when at
least one of the two flags is set). -/
def newNum (pfx sfx : Bool) (mp ms : Nat) : Nat :=
  if pfx && !sfx then mp + 1
  else if sfx && !pfx then ms + 1
  else max mp ms + 1

/-! ## Python string helpers used by `create_dir` -/

/-- Python truthiness of an optional string: `None` and `""` are falsy. -/
def pyTruthy : Option String → Bool
  | none => false
  | some s => !s.isEmpty

/-- `separator.join(parts)`. -/
def pyJoin (sep : String) (parts : List String) : String :=
  String.intercalate sep parts

/-- `[s for s in parts if s]`: keep the non-empty strings. -/
def nonEmptyParts (parts : List String) : List String :=
  parts.filter (fun s => !s.isEmpty)

/-- Python's `s.lstrip("0")`: remove every leading `'0'`. -/
def pyLstrip0 (s : String) : String :=
  String.mk (s.toList.dropWhile (fun c => c = '0'))

/-- Python's `s.replace(" 0", " ")`: scan left to right, replacing each
non-overlapping occurrence of `" 0"` and continuing after the replacement. -/
def replaceSpaceZero : List Char → List Char
  | [] => []
  | [c] => [c]
  | c :: d :: rest =>
      if c = ' ' ∧ d = '0' then ' ' :: replaceSpaceZero rest
      else c :: replaceSpaceZero (d :: rest)

/-! ## Configuration, environment, requests, filesystem state -/

/-- The configuration dictionary returned by `load_config`. -/
structure Config where
  timezone : Option String
  time_format_with_seconds : Bool
  log_dir : Option String
deriving DecidableEq

/-- External world fixed for the duration of a call: the `pytz` timezone
database, the local timezone, and `strftime` at the fixed current instant. -/
structure Env where
  isValidTz : String → Bool
  localTz : String
  strftime : String → String → String
  config : Config

/-- The arguments of `create_dir`. -/
structure Request where
  base_name : String
  parent_dir : String
  use_date : Bool
  use_time : Bool
  date_format : String
  time_format : Option String
  timezone : Option String
  pfx : Bool
  sfx : Bool
  separator : String
deriving DecidableEq

/-- The filesystem state `create_dir` touches: whether the parent directory
exists, the directory names inside it, and the log file's rows (`none` when
the file does not exist). -/
structure FS where
  parentExists : Bool
  children : List String
  logFile : Option (List (List String))
deriving DecidableEq

/-! ## The embedded `create_dir` -/

/-- Timezone resolution: explicit argument if truthy (raising for an unknown
name), else the configured timezone if truthy (again raising when unknown),
else the local timezone.  `none` models the raised
`pytz.exceptions.UnknownTimeZoneError`. -/
def resolveTz (e : Env) (arg : Option String) : Option String :=
  if pyTruthy arg then
    if e.isValidTz (arg.getD "") then some (arg.getD "") else none
  else if pyTruthy e.config.timezone then
    if e.isValidTz (e.config.timezone.getD "") then some (e.config.timezone.getD "") else none
  else some e.localTz

/-- The effective time format: the explicit argument when not `None`, else a
seconds-inclusive or seconds-exclusive 12-hour format per configuration. -/
def effTimeFormat (e : Env) (q : Request) : String :=
  match q.time_format with
  | some f => f
  | none => if e.config.time_format_with_seconds then "%I:%M:%S%p" else "%I:%M%p"

/-- The timestamp token: date and/or time part (the time part with its leading
zeros stripped by `lstrip("0")`), joined with the separator. -/
def timestampToken (e : Env) (q : Request) (tz : String) : String :=
  if q.use_date || q.use_time then
    pyJoin q.separator (nonEmptyParts
      [if q.use_date then e.strftime tz q.date_format else "",
       if q.use_time then pyLstrip0 (e.strftime tz (effTimeFormat e q)) else ""])
  else ""

/-- `dir_base`: the base name joined with the timestamp token, empty parts
omitted. -/
def dirBase (e : Env) (q : Request) (tz : String) : String :=
  pyJoin q.separator (nonEmptyParts [q.base_name, timestampToken e q tz])

/-- `parent_path.mkdir(parents=True, exist_ok=True)`: a fresh parent has no
children; an existing one is untouched. -/
def parentMk (fs : FS) : FS :=
  if fs.parentExists then fs
  else { parentExists := true, children := [], logFile := fs.logFile }

/-- The new directory name computed by `create_dir` from the scan of the
parent's children. -/
def computedName (e : Env) (q : Request) (tz : String) (siblings : List String) : String :=
  String.mk (newDirName q.pfx q.sfx q.separator.toList (dirBase e q tz).toList
    (scanMax q.separator.toList (dirBase e q tz).toList (siblings.map String.toList)).1
    (scanMax q.separator.toList (dirBase e q tz).toList (siblings.map String.toList)).2)

/-- `log_directory`: no-op for a falsy `log_dir`; otherwise append one row,
writing the header first when the file did not exist.  `rawNow` is the
`strftime`-formatted current time, whose `" 0"` occurrences get replaced. -/
def logDirectory (logDir : Option String) (dirName dirPath rawNow : String)
    (logFile : Option (List (List String))) : Option (List (List String)) :=
  if pyTruthy logDir then
    let creationTime := String.mk (replaceSpaceZero rawNow.toList)
    let row := [creationTime, dirName, dirPath]
    match logFile with
    | none => some [["Date", "Directory", "Path"], row]
    | some rows => some (rows ++ [row])
  else logFile

/-- The success path of `create_dir` after timezone resolution: create the
parent, scan it, compute the name, create the directory (idempotently), and
log. -/
def createDirOk (e : Env) (q : Request) (tz : String) (fs : FS) : String × FS :=
  let fs1 := parentMk fs
  let name := computedName e q tz fs1.children
  let fs2 : FS :=
    { fs1 with children := if name ∈ fs1.children then fs1.children else fs1.children ++ [name] }
  let lf := logDirectory e.config.log_dir name (q.parent_dir ++ "/" ++ name)
    (e.strftime tz "%b %d, %Y at %I:%M %p") fs2.logFile
  (name, { fs2 with logFile := lf })

/-- `create_dir`: resolve the timezone (an unknown name raises before any
side effect, returning the state unchanged), then run the success path. -/
def createDir (e : Env) (q : Request) (fs : FS) : Option String × FS :=
  match resolveTz e q.timezone with
  | none => (none, fs)
  | some tz =>
      let r := createDirOk e q tz fs
      (some r.1, r.2)

/-! ## Spec-side definitions (written from the specification's words) -/

/-- A numeric token: non-empty and consisting of digits only. -/
def numTok (d : List Char) : Prop :=
  d ≠ [] ∧ ∀ c ∈ d, c.isDigit

/-- The grammar the specification claims the pattern recognises: optional
`<number><separator>`, the literal `dir_base`, optional `<separator><number>`,
anchored at both ends, the separator matched literally. -/
def specShape (sep base name : List Char) : Prop :=
  name = base
  ∨ (∃ d, numTok d ∧ name = d ++ sep ++ base)
  ∨ (∃ d, numTok d ∧ name = base ++ sep ++ d)
  ∨ (∃ d e, numTok d ∧ numTok e ∧ name = d ++ sep ++ base ++ sep ++ e)

/-- A name of the claimed shape, possibly followed by the one trailing
newline that Python's `$` tolerates. -/
def specShapeNL (sep base name : List Char) : Prop :=
  specShape sep base name ∨ ∃ core, name = core ++ ['\n'] ∧ specShape sep base core

/-- Removing a single leading zero, as the specification describes the time
formatting (`"05:08AM"` becomes `"5:08AM"`). -/
def stripOneLeadingZero (s : String) : String :=
  match s.toList with
  | c :: rest => if c = '0' then String.mk rest else s
  | [] => s

/-- Deleting the `'0'` of each occurrence of `" 0"` (the zero following a
space in the original string), as the specification describes the log
timestamp. -/
def delZeroAux : Char → List Char → List Char
  | _, [] => []
  | p, c :: rest =>
      if p = ' ' ∧ c = '0' then delZeroAux c rest else c :: delZeroAux c rest

/-- Spec-side log-timestamp cleanup: drop every `'0'` whose predecessor in the
original string is a space. -/
def delZeroAfterSpace : List Char → List Char
  | [] => []
  | c :: rest => c :: delZeroAux c rest

/-! ## Reference inputs used to instantiate the theorems -/

/-- An environment whose timezone database accepts every name. -/
def envOk : Env :=
  { isValidTz := fun _ => true, localTz := "Local",
    strftime := fun _ _ => "May 07, 2025 at 08:08 AM",
    config := { timezone := none, time_format_with_seconds := false, log_dir := none } }

/-- An environment whose timezone database rejects every name. -/
def envBad : Env :=
  { isValidTz := fun _ => false, localTz := "Local",
    strftime := fun _ _ => "May 07, 2025 at 08:08 AM",
    config := { timezone := none, time_format_with_seconds := false, log_dir := none } }

/-- An environment with a configured log directory. -/
def envLog : Env :=
  { isValidTz := fun _ => true, localTz := "Local",
    strftime := fun _ _ => "May 07, 2025 at 08:08 AM",
    config := { timezone := none, time_format_with_seconds := false, log_dir := some "logs" } }

/-- The default-argument request for a given base name. -/
def defaultRequest (base : String) : Request :=
  { base_name := base, parent_dir := ".", use_date := false, use_time := false,
    date_format := "%Y-%m-%d", time_format := none, timezone := none,
    pfx := true, sfx := false, separator := "-" }

/-- An empty filesystem: no parent directory, no log file. -/
def fsEmpty : FS :=
  { parentExists := false, children := [], logFile := none }

/-- An environment whose clock formats every time as `"0005"` (as e.g. the
format `"%H%M"` does at five past midnight). -/
def envTime0005 : Env :=
  { isValidTz := fun _ => true, localTz := "Local", strftime := fun _ _ => "0005",
    config := { timezone := none, time_format_with_seconds := false, log_dir := none } }

/-- A request embedding the current time in the name, with no numeric tag. -/
def requestTimeOnly : Request :=
  { defaultRequest "t" with use_time := true, pfx := false, sfx := false }

/-! ## Helper lemmas -/

theorem mk_toList (s : String) : String.mk s.toList = s := by
  cases s
  rfl

theorem replaceSpaceZero_cons_eq_delZeroAux :
    ∀ (n : Nat) (l : List Char), l.length ≤ n →
      ∀ c, replaceSpaceZero (c :: l) = c :: delZeroAux c l := by
  intro n
  induction n with
  | zero =>
      intro l hl c
      have : l = [] := List.length_eq_zero.mp (Nat.le_zero.mp hl)
      subst this
      rfl
  | succ n ih =>
      intro l hl c
      match l with
      | [] => rfl
      | d :: rest =>
          by_cases h : c = ' ' ∧ d = '0'
          · obtain ⟨hc, hd⟩ := h
            subst hc; subst hd
            have hrest : replaceSpaceZero rest = delZeroAux '0' rest := by
              match rest with
              | [] => rfl
              | r0 :: r1 =>
                  have hlen : r1.length ≤ n := by
                    simp only [List.length_cons] at hl
                    omega
                  rw [ih r1 hlen r0]
                  simp only [delZeroAux]
                  rw [if_neg]
                  intro hcon
                  exact absurd hcon.1 (by decide)
            simp [replaceSpaceZero, delZeroAux, hrest]
          · simp only [replaceSpaceZero, delZeroAux, if_neg h]
            have hlen : rest.length ≤ n := by
              simp only [List.length_cons] at hl
              omega
            rw [ih rest hlen d]

theorem parentMk_parentExists (fs : FS) : (parentMk fs).parentExists = true := by
  unfold parentMk
  by_cases h : fs.parentExists
  · rw [if_pos h]; exact h
  · rw [if_neg h]

theorem parentMk_logFile (fs : FS) : (parentMk fs).logFile = fs.logFile := by
  unfold parentMk
  by_cases h : fs.parentExists
  · rw [if_pos h]
  · rw [if_neg h]

theorem parentMk_of_parentExists (fs : FS) (h : fs.parentExists = true) : parentMk fs = fs := by
  unfold parentMk
  rw [if_pos h]

/-! ## Claim theorems -/

/-- C10: every occurrence of a space followed by the digit `0` in the log
timestamp has its zero removed — the day-of-month as well as the hour — so
Python's `replace(" 0", " ")` agrees with deleting each zero that follows a
space in the original string, and `"May 07, 2025 at 08:08 AM"` is logged as
`"May 7, 2025 at 8:08 AM"`. -/
theorem log_timestamp_strips_zero_after_space :
    (∀ l : List Char, replaceSpaceZero l = delZeroAfterSpace l) ∧
    String.mk (replaceSpaceZero "May 07, 2025 at 08:08 AM".toList)
      = "May 7, 2025 at 8:08 AM" := by
  constructor
  · intro l
    match l with
    | [] => rfl
    | c :: rest =>
        simp only [delZeroAfterSpace]
        exact replaceSpaceZero_cons_eq_delZeroAux rest.length rest le_rfl c
  · decide

/-- C9: passing the empty string as the timezone argument behaves exactly like
passing no timezone at all — the configured or local timezone is used and no
error is raised for the empty string itself. -/
theorem empty_timezone_like_none (e : Env) (q : Request) (fs : FS) :
    createDir e { q with timezone := some "" } fs
      = createDir e { q with timezone := none } fs := by
  rfl

/-- C5: an invalid timezone identifier — supplied explicitly or via the
configuration — makes `create_dir` fail before any side effect: the parent
and target directories are not created and no log entry is written. -/
theorem invalid_timezone_no_side_effects (e : Env) (q : Request) (fs : FS)
    (h : (∃ t, q.timezone = some t ∧ t ≠ "" ∧ e.isValidTz t = false) ∨
         (pyTruthy q.timezone = false ∧
          ∃ t, e.config.timezone = some t ∧ t ≠ "" ∧ e.isValidTz t = false)) :
    createDir e q fs = (none, fs) ∧
    (createDir e q fs).2.parentExists = fs.parentExists ∧
    (createDir e q fs).2.children = fs.children ∧
    (createDir e q fs).2.logFile = fs.logFile := by
  have hres : resolveTz e q.timezone = none := by
    unfold resolveTz
    rcases h with ⟨t, ht, hne, hval⟩ | ⟨htr, t, ht, hne, hval⟩
    · have htru : pyTruthy q.timezone = true := by
        rw [ht]
        show (!t.isEmpty) = true
        cases hemp : t.isEmpty with
        | false => rfl
        | true => exact absurd ((String.isEmpty_iff t).mp hemp) hne
      rw [if_pos htru, ht]
      simp only [Option.getD_some]
      rw [if_neg (by rw [hval]; exact Bool.false_ne_true)]
    · have htru : pyTruthy e.config.timezone = true := by
        rw [ht]
        show (!t.isEmpty) = true
        cases hemp : t.isEmpty with
        | false => rfl
        | true => exact absurd ((String.isEmpty_iff t).mp hemp) hne
      rw [if_neg (by rw [htr]; exact Bool.false_ne_true), if_pos htru, ht]
      simp only [Option.getD_some]
      rw [if_neg (by rw [hval]; exact Bool.false_ne_true)]
  unfold createDir
  rw [hres]
  exact ⟨rfl, rfl, rfl, rfl⟩

/-- C5 witness: a concrete call with an unknown explicit timezone returns the
error and leaves the filesystem untouched. -/
theorem invalid_timezone_no_side_effects_witness :
    createDir envBad { defaultRequest "data" with timezone := some "Nope" } fsEmpty
      = (none, fsEmpty) := by
  exact (invalid_timezone_no_side_effects envBad
    { defaultRequest "data" with timezone := some "Nope" } fsEmpty
    (Or.inl ⟨"Nope", rfl, by decide, rfl⟩)).1

/-- C4 counterexample: when `strftime` yields `"0005"`, the code's
`lstrip("0")` strips all three leading zeros (giving the name `"t-5"`) whereas
removing exactly one leading zero would give `"005"` (name `"t-005"`); so it
is not true that exactly one leading zero is removed from every formatted
time string. -/
theorem time_strip_counterexample :
    (createDir envTime0005 requestTimeOnly fsEmpty).1 = some "t-5" ∧
    pyLstrip0 "0005" = "5" ∧
    stripOneLeadingZero "0005" = "005" ∧
    pyLstrip0 "0005" ≠ stripOneLeadingZero "0005" := by
  refine ⟨rfl, rfl, rfl, ?_⟩
  decide

/-- C4 amended: `create_dir` strips all leading zeros from the formatted time
string (Python's `lstrip("0")`); this removes exactly one leading zero
whenever the formatted string does not begin with two zeros — which covers
the 12-hour `%I` formats the tool defaults to — but strings with several
leading zeros lose all of them. -/
theorem lstrip_removes_all_leading_zeros (s : String)
    (h : s.toList.take 2 ≠ ['0', '0']) :
    pyLstrip0 s = stripOneLeadingZero s := by
  obtain ⟨l⟩ := s
  cases l with
  | nil => rfl
  | cons c rest =>
      show String.mk (List.dropWhile (fun x => x = '0') (c :: rest)) =
        stripOneLeadingZero (String.mk (c :: rest))
      by_cases hc : c = '0'
      · subst hc
        have h2 : List.dropWhile (fun x => x = '0') rest = rest := by
          cases rest with
          | nil => rfl
          | cons r0 r1 =>
              have hr0 : r0 ≠ '0' := by
                intro hr
                subst hr
                exact h rfl
              rw [List.dropWhile_cons, if_neg (by simp [hr0])]
        rw [List.dropWhile_cons, if_pos (by decide), h2]
        show String.mk rest
          = if '0' = '0' then String.mk rest else String.mk ('0' :: rest)
        rw [if_pos rfl]
      · rw [List.dropWhile_cons, if_neg (by simp [hc])]
        show String.mk (c :: rest) = if c = '0' then String.mk rest else String.mk (c :: rest)
        rw [if_neg hc]

/-- C4 amended witness: on `"05:08AM"` the code's stripping and
one-zero-removal agree, both giving `"5:08AM"`. -/
theorem lstrip_removes_all_leading_zeros_witness :
    pyLstrip0 "05:08AM" = stripOneLeadingZero "05:08AM" ∧ pyLstrip0 "05:08AM" = "5:08AM" := by
  exact ⟨lstrip_removes_all_leading_zeros "05:08AM" (by decide), rfl⟩

/-- C3 counterexample: with an empty base name, no timestamp and the default
prefix request, `create_dir` produces `"1-"` — the number together with a
trailing separator — not the numeric-only name `"1"`. -/
theorem empty_base_counterexample :
    (createDir envOk (defaultRequest "") fsEmpty).1 = some "1-" ∧
    ("1-" : String) ≠ "1" ∧
    "1-".toList.all Char.isDigit = false := by
  refine ⟨rfl, ?_, rfl⟩
  decide

/-- C3 amended: empty `base_name` with no timestamp yields an empty
`dir_base`, and the resulting names keep the separator next to the number:
prefix-only gives `<n><sep>`, suffix-only gives `<sep><n>`, and both flags
give `<n><sep><sep><n>`; the name is numeric-only just when the separator is
empty. -/
theorem empty_base_names (e : Env) (q : Request) (tz : String) (sep : List Char) (mp ms : Nat) :
    (q.base_name = "" → q.use_date = false → q.use_time = false → dirBase e q tz = "") ∧
    newDirName true false sep [] mp ms = natChars (mp + 1) ++ sep ∧
    newDirName false true sep [] mp ms = sep ++ natChars (ms + 1) ∧
    newDirName true true sep [] mp ms
      = natChars (max mp ms + 1) ++ sep ++ sep ++ natChars (max mp ms + 1) := by
  refine ⟨?_, ?_, ?_, ?_⟩
  · intro hb hd ht
    unfold dirBase timestampToken
    rw [hb, hd, ht]
    rfl
  · simp [newDirName]
  · simp [newDirName]
  · simp [newDirName]

/-- C3 amended witness: concretely, empty base name yields empty `dir_base`,
and the three flag combinations give `"1-"`, `"-1"` and `"1--1"`. -/
theorem empty_base_names_witness :
    dirBase envOk (defaultRequest "") "Local" = "" ∧
    newDirName true false ['-'] [] 0 0 = ['1', '-'] ∧
    newDirName false true ['-'] [] 0 0 = ['-', '1'] ∧
    newDirName true true ['-'] [] 0 0 = ['1', '-', '-', '1'] := by
  have h := empty_base_names envOk (defaultRequest "") "Local" ['-'] 0 0
  exact ⟨h.1 rfl rfl rfl, h.2.1, h.2.2.1, h.2.2.2⟩

/-! ## Lemmas about the sibling scan -/

theorem scanStep_le (sep base : List Char) (a : Nat × Nat) (d : List Char) :
    a.1 ≤ (scanStep sep base a d).1 ∧ a.2 ≤ (scanStep sep base a d).2 := by
  unfold scanStep
  cases hm : reMatch sep base d with
  | none => exact ⟨le_rfl, le_rfl⟩
  | some v =>
      obtain ⟨op, os⟩ := v
      exact ⟨Nat.le_max_left _ _, Nat.le_max_left _ _⟩

theorem scanAux_le (sep base : List Char) (dirs : List (List Char)) :
    ∀ a : Nat × Nat,
      a.1 ≤ (dirs.foldl (scanStep sep base) a).1 ∧
      a.2 ≤ (dirs.foldl (scanStep sep base) a).2 := by
  induction dirs with
  | nil => intro a; exact ⟨le_rfl, le_rfl⟩
  | cons d t ih =>
      intro a
      rw [List.foldl_cons]
      exact ⟨le_trans (scanStep_le sep base a d).1 (ih _).1,
             le_trans (scanStep_le sep base a d).2 (ih _).2⟩

theorem scanAux_bound (sep base : List Char) :
    ∀ (dirs : List (List Char)) (a : Nat × Nat) (d : List Char) (op os : Option Nat),
      d ∈ dirs → reMatch sep base d = some (op, os) →
      op.getD 0 ≤ (dirs.foldl (scanStep sep base) a).1 ∧
      os.getD 0 ≤ (dirs.foldl (scanStep sep base) a).2 := by
  intro dirs
  induction dirs with
  | nil => intro a d op os hd _; cases hd
  | cons x t ih =>
      intro a d op os hd hm
      rw [List.foldl_cons]
      rcases List.mem_cons.mp hd with heq | hmem
      · subst heq
        have h1 : (scanStep sep base a d).1 = max a.1 (op.getD 0) := by
          unfold scanStep; rw [hm]
        have h2 : (scanStep sep base a d).2 = max a.2 (os.getD 0) := by
          unfold scanStep; rw [hm]
        have hrest := scanAux_le sep base t (scanStep sep base a d)
        constructor
        · exact le_trans (by rw [h1]; exact Nat.le_max_right _ _) hrest.1
        · exact le_trans (by rw [h2]; exact Nat.le_max_right _ _) hrest.2
      · exact ih _ d op os hmem hm

theorem observedNums_cons (sep base d : List Char) (t : List (List Char)) :
    observedNums sep base (d :: t)
      = (match reMatch sep base d with
         | some (op, os) => op.toList ++ os.toList ++ observedNums sep base t
         | none => observedNums sep base t) := rfl

theorem foldl_max_le_acc : ∀ (l : List Nat) (a : Nat), a ≤ l.foldl max a := by
  intro l
  induction l with
  | nil => intro a; exact le_rfl
  | cons b t ih =>
      intro a
      rw [List.foldl_cons]
      exact le_trans (Nat.le_max_left a b) (ih _)

theorem mem_le_foldl_max : ∀ (l : List Nat) (a t : Nat), t ∈ l → t ≤ l.foldl max a := by
  intro l
  induction l with
  | nil => intro a t ht; cases ht
  | cons b u ih =>
      intro a t ht
      rw [List.foldl_cons]
      rcases List.mem_cons.mp ht with rfl | hmem
      · exact le_trans (Nat.le_max_right a t) (foldl_max_le_acc u _)
      · exact ih _ t hmem

theorem scan_fold (sep base : List Char) :
    ∀ (dirs : List (List Char)) (a : Nat × Nat),
      max (dirs.foldl (scanStep sep base) a).1 (dirs.foldl (scanStep sep base) a).2
        = (observedNums sep base dirs).foldl max (max a.1 a.2) := by
  intro dirs
  induction dirs with
  | nil => intro a; rfl
  | cons d t ih =>
      intro a
      rw [List.foldl_cons, observedNums_cons]
      cases hm : reMatch sep base d with
      | none =>
          have hs : scanStep sep base a d = a := by unfold scanStep; rw [hm]
          rw [hs]
          exact ih a
      | some v =>
          obtain ⟨op, os⟩ := v
          have hs : scanStep sep base a d = (max a.1 (op.getD 0), max a.2 (os.getD 0)) := by
            unfold scanStep; rw [hm]
          rw [hs, ih]
          rw [List.foldl_append, List.foldl_append]
          congr 1
          cases op <;> cases os <;> simp [Option.toList, Option.getD] <;> omega

/-- C1 counterexample: with existing sibling `"data-5"` and a prefix-only
request for `dir_base = "data"`, the computed name is `"1-data"`, whose
numeric tag `1` is not strictly greater than the previously observed suffix
tag `5`. -/
theorem tag_not_above_all_observed_counterexample :
    newDirName true false ['-'] ['d', 'a', 't', 'a']
        (scanMax ['-'] ['d', 'a', 't', 'a'] [['d', 'a', 't', 'a', '-', '5']]).1
        (scanMax ['-'] ['d', 'a', 't', 'a'] [['d', 'a', 't', 'a', '-', '5']]).2
      = ['1', '-', 'd', 'a', 't', 'a'] ∧
    reMatch ['-'] ['d', 'a', 't', 'a'] ['1', '-', 'd', 'a', 't', 'a']
      = some (some 1, none) ∧
    (5 : Nat) ∈ observedNums ['-'] ['d', 'a', 't', 'a'] [['d', 'a', 't', 'a', '-', '5']] ∧
    ¬ ((5 : Nat) < 1) := by
  decide

/-- C1 amended: the computed name is deterministic (a pure function of the
inputs), and its fresh number exceeds every previously observed tag of each
requested kind: with a prefix requested it exceeds every observed prefix tag,
with a suffix requested every observed suffix tag (and with both, every
observed tag); it need not exceed observed tags of a kind that was not
requested. -/
theorem new_number_exceeds_requested_tags (sep base : List Char) (dirs : List (List Char))
    (pfx sfx : Bool) (d : List Char) (op os : Option Nat)
    (hd : d ∈ dirs) (hm : reMatch sep base d = some (op, os)) :
    (pfx = true → ∀ pn, op = some pn →
      pn < newNum pfx sfx (scanMax sep base dirs).1 (scanMax sep base dirs).2) ∧
    (sfx = true → ∀ sn, os = some sn →
      sn < newNum pfx sfx (scanMax sep base dirs).1 (scanMax sep base dirs).2) := by
  have hb : op.getD 0 ≤ (scanMax sep base dirs).1 ∧
      os.getD 0 ≤ (scanMax sep base dirs).2 :=
    scanAux_bound sep base dirs (0, 0) d op os hd hm
  constructor
  · intro hp pn hpn
    have hle : pn ≤ (scanMax sep base dirs).1 := by
      have h1 := hb.1
      rw [hpn, Option.getD_some] at h1
      exact h1
    subst hp
    cases sfx <;> simp [newNum] <;> omega
  · intro hs sn hsn
    have hle : sn ≤ (scanMax sep base dirs).2 := by
      have h2 := hb.2
      rw [hsn, Option.getD_some] at h2
      exact h2
    subst hs
    cases pfx <;> simp [newNum] <;> omega

/-- C1 amended witness: with existing sibling `"3-data"` and a prefix-only
request, the observed prefix tag `3` is below the fresh number. -/
theorem new_number_exceeds_requested_tags_witness :
    (3 : Nat) < newNum true false
      (scanMax ['-'] ['d', 'a', 't', 'a'] [['3', '-', 'd', 'a', 't', 'a']]).1
      (scanMax ['-'] ['d', 'a', 't', 'a'] [['3', '-', 'd', 'a', 't', 'a']]).2 := by
  exact (new_number_exceeds_requested_tags ['-'] ['d', 'a', 't', 'a']
    [['3', '-', 'd', 'a', 't', 'a']] true false ['3', '-', 'd', 'a', 't', 'a']
    (some 3) none (by decide) (by decide)).1 rfl 3 rfl

/-- C6: with both `prefix` and `suffix` requested, the computed name carries
the same fresh number on both ends, and that number is one more than the
maximum of all previously observed prefix and suffix tags among the siblings
matching `dir_base` (and strictly exceeds each of them). -/
theorem both_flags_same_number (sep base : List Char) (dirs : List (List Char)) :
    newDirName true true sep base (scanMax sep base dirs).1 (scanMax sep base dirs).2
      = natChars (max (scanMax sep base dirs).1 (scanMax sep base dirs).2 + 1) ++ sep ++ base
        ++ sep ++ natChars (max (scanMax sep base dirs).1 (scanMax sep base dirs).2 + 1) ∧
    max (scanMax sep base dirs).1 (scanMax sep base dirs).2 + 1
      = (observedNums sep base dirs).foldl max 0 + 1 ∧
    ∀ t ∈ observedNums sep base dirs,
      t < max (scanMax sep base dirs).1 (scanMax sep base dirs).2 + 1 := by
  have hf : max (scanMax sep base dirs).1 (scanMax sep base dirs).2
      = (observedNums sep base dirs).foldl max 0 := by
    have h := scan_fold sep base dirs (0, 0)
    simpa using h
  refine ⟨by simp [newDirName], by rw [hf], ?_⟩
  intro t ht
  have hle := mem_le_foldl_max (observedNums sep base dirs) 0 t ht
  rw [hf]
  omega

/-- C6 witness: with existing sibling `"3-data-2"`, the observed prefix tag
`3` is below the fresh both-ends number. -/
theorem both_flags_same_number_witness :
    (3 : Nat) < max (scanMax ['-'] ['d', 'a', 't', 'a']
        [['3', '-', 'd', 'a', 't', 'a', '-', '2']]).1
      (scanMax ['-'] ['d', 'a', 't', 'a'] [['3', '-', 'd', 'a', 't', 'a', '-', '2']]).2 + 1 := by
  exact (both_flags_same_number ['-'] ['d', 'a', 't', 'a']
    [['3', '-', 'd', 'a', 't', 'a', '-', '2']]).2.2 3 (by decide)

/-! ## Unfolding lemmas for the orchestration -/

theorem computedName_noflags (e : Env) (q : Request) (tz : String) (sib : List String)
    (hp : q.pfx = false) (hs : q.sfx = false) :
    computedName e q tz sib = dirBase e q tz := by
  unfold computedName
  rw [hp, hs]
  unfold newDirName
  simp only [Bool.false_and, Bool.and_false, if_neg Bool.false_ne_true, if_false]
  exact mk_toList _

theorem createDirOk_fst (e : Env) (q : Request) (tz : String) (fs : FS) :
    (createDirOk e q tz fs).1 = computedName e q tz (parentMk fs).children := rfl

theorem createDirOk_parentExists (e : Env) (q : Request) (tz : String) (fs : FS) :
    (createDirOk e q tz fs).2.parentExists = (parentMk fs).parentExists := rfl

theorem createDirOk_children (e : Env) (q : Request) (tz : String) (fs : FS) :
    (createDirOk e q tz fs).2.children
      = (if computedName e q tz (parentMk fs).children ∈ (parentMk fs).children
         then (parentMk fs).children
         else (parentMk fs).children ++ [computedName e q tz (parentMk fs).children]) := rfl

theorem createDirOk_logFile (e : Env) (q : Request) (tz : String) (fs : FS) :
    (createDirOk e q tz fs).2.logFile
      = logDirectory e.config.log_dir (createDirOk e q tz fs).1
          (q.parent_dir ++ "/" ++ (createDirOk e q tz fs).1)
          (e.strftime tz "%b %d, %Y at %I:%M %p") (parentMk fs).logFile := rfl

theorem createDir_ok (e : Env) (q : Request) (tz : String)
    (htz : resolveTz e q.timezone = some tz) (g : FS) :
    createDir e q g = (some (createDirOk e q tz g).1, (createDirOk e q tz g).2) := by
  unfold createDir
  rw [htz]

/-- C7: with neither `prefix` nor `suffix` requested, repeated calls with the
same arguments return the same path (`dir_base`), the second call raises no
error, and the set of directories inside the parent does not change on the
second call: the directory is created at most once. -/
theorem no_flags_idempotent (e : Env) (q : Request) (fs : FS) (tz : String)
    (hp : q.pfx = false) (hs : q.sfx = false)
    (htz : resolveTz e q.timezone = some tz) :
    (createDir e q fs).1 = some (dirBase e q tz) ∧
    (createDir e q (createDir e q fs).2).1 = some (dirBase e q tz) ∧
    (createDir e q (createDir e q fs).2).2.children = (createDir e q fs).2.children := by
  have hn1 : (createDirOk e q tz fs).1 = dirBase e q tz := by
    rw [createDirOk_fst]
    exact computedName_noflags e q tz _ hp hs
  have hpe : (createDirOk e q tz fs).2.parentExists = true := by
    rw [createDirOk_parentExists]
    exact parentMk_parentExists fs
  have hpm : parentMk (createDirOk e q tz fs).2 = (createDirOk e q tz fs).2 :=
    parentMk_of_parentExists _ hpe
  have hmem : dirBase e q tz ∈ (createDirOk e q tz fs).2.children := by
    rw [createDirOk_children, computedName_noflags e q tz _ hp hs]
    by_cases hin : dirBase e q tz ∈ (parentMk fs).children
    · rw [if_pos hin]; exact hin
    · rw [if_neg hin]; exact List.mem_append_right _ (List.mem_singleton_self _)
  refine ⟨?_, ?_, ?_⟩
  · rw [createDir_ok e q tz htz fs, hn1]
  · rw [createDir_ok e q tz htz fs, createDir_ok e q tz htz _, createDirOk_fst,
      computedName_noflags e q tz _ hp hs]
  · rw [createDir_ok e q tz htz fs, createDir_ok e q tz htz _, createDirOk_children]
    show (if computedName e q tz (parentMk (createDirOk e q tz fs).2).children
        ∈ (parentMk (createDirOk e q tz fs).2).children then _ else _) = _
    rw [hpm, computedName_noflags e q tz _ hp hs, if_pos hmem]

/-- C7 witness: two concrete no-flag calls both return `"data"` and the
second leaves the parent's contents unchanged. -/
theorem no_flags_idempotent_witness :
    (createDir envOk { defaultRequest "data" with pfx := false, sfx := false } fsEmpty).1
      = some "data" ∧
    (createDir envOk { defaultRequest "data" with pfx := false, sfx := false }
        (createDir envOk { defaultRequest "data" with pfx := false, sfx := false } fsEmpty).2).1
      = some "data" ∧
    (createDir envOk { defaultRequest "data" with pfx := false, sfx := false }
        (createDir envOk { defaultRequest "data" with pfx := false, sfx := false } fsEmpty).2).2.children
      = (createDir envOk { defaultRequest "data" with pfx := false, sfx := false } fsEmpty).2.children := by
  exact no_flags_idempotent envOk { defaultRequest "data" with pfx := false, sfx := false }
    fsEmpty "Local" rfl rfl rfl

/-- C8: starting from a non-existent log file, two calls with a configured
log directory leave the log file containing exactly one header row followed
by exactly two data rows, whatever the two requests create or reuse. -/
theorem log_two_calls (e : Env) (q1 q2 : Request) (fs : FS) (tz1 tz2 : String)
    (hlf : fs.logFile = none) (hld : pyTruthy e.config.log_dir = true)
    (h1 : resolveTz e q1.timezone = some tz1) (h2 : resolveTz e q2.timezone = some tz2) :
    ∃ r1 r2, (createDir e q2 (createDir e q1 fs).2).2.logFile
      = some [["Date", "Directory", "Path"], r1, r2] := by
  have hl1 : (createDirOk e q1 tz1 fs).2.logFile
      = some [["Date", "Directory", "Path"],
              [String.mk (replaceSpaceZero (e.strftime tz1 "%b %d, %Y at %I:%M %p").toList),
               (createDirOk e q1 tz1 fs).1,
               q1.parent_dir ++ "/" ++ (createDirOk e q1 tz1 fs).1]] := by
    rw [createDirOk_logFile, parentMk_logFile, hlf]
    unfold logDirectory
    rw [if_pos hld]
  refine ⟨[String.mk (replaceSpaceZero (e.strftime tz1 "%b %d, %Y at %I:%M %p").toList),
           (createDirOk e q1 tz1 fs).1,
           q1.parent_dir ++ "/" ++ (createDirOk e q1 tz1 fs).1],
          [String.mk (replaceSpaceZero (e.strftime tz2 "%b %d, %Y at %I:%M %p").toList),
           (createDirOk e q2 tz2 (createDirOk e q1 tz1 fs).2).1,
           q2.parent_dir ++ "/" ++ (createDirOk e q2 tz2 (createDirOk e q1 tz1 fs).2).1], ?_⟩
  rw [createDir_ok e q1 tz1 h1 fs]
  show (createDir e q2 (createDirOk e q1 tz1 fs).2).2.logFile = _
  rw [createDir_ok e q2 tz2 h2 _]
  show (createDirOk e q2 tz2 (createDirOk e q1 tz1 fs).2).2.logFile = _
  rw [createDirOk_logFile, parentMk_logFile, hl1]
  unfold logDirectory
  rw [if_pos hld]
  rfl

/-- C8 witness: two concrete calls with a configured log directory produce a
header row and two data rows. -/
theorem log_two_calls_witness :
    ∃ r1 r2, (createDir envLog (defaultRequest "data")
        (createDir envLog (defaultRequest "data") fsEmpty).2).2.logFile
      = some [["Date", "Directory", "Path"], r1, r2] := by
  exact log_two_calls envLog (defaultRequest "data") (defaultRequest "data") fsEmpty
    "Local" "Local" rfl rfl rfl rfl

/-! ## The matcher under a literal (metacharacter-free) separator -/

theorem sepCharMatches_of_not_special (p c : Char) (h : isRegexSpecial p = false) :
    sepCharMatches p c = true ↔ p = c := by
  unfold sepCharMatches
  have hp : p ≠ '.' := by
    intro hd
    subst hd
    exact absurd h (by decide)
  rw [if_neg hp]
  simp

theorem consumeSep_literal :
    ∀ sep : List Char, (∀ c ∈ sep, isRegexSpecial c = false) →
      ∀ s r : List Char, consumeSep sep s = some r ↔ s = sep ++ r := by
  intro sep
  induction sep with
  | nil =>
      intro _ s r
      show some s = some r ↔ s = [] ++ r
      simp
  | cons p ps ih =>
      intro hlit s r
      have hps : ∀ c ∈ ps, isRegexSpecial c = false :=
        fun c hc => hlit c (List.mem_cons_of_mem p hc)
      cases s with
      | nil =>
          show none = some r ↔ ([] : List Char) = p :: (ps ++ r)
          simp
      | cons c cs =>
          show (if sepCharMatches p c then consumeSep ps cs else none) = some r
            ↔ c :: cs = p :: (ps ++ r)
          by_cases hpc : sepCharMatches p c = true
          · rw [if_pos hpc, ih hps cs r]
            have hcp : p = c :=
              (sepCharMatches_of_not_special p c (hlit p (List.mem_cons_self p ps))).mp hpc
            subst hcp
            constructor
            · intro hcs
              rw [hcs]
            · intro hh
              injection hh with _ h2
          · rw [if_neg hpc]
            constructor
            · intro h
              exact Option.noConfusion h
            · intro hh
              injection hh with h1 _
              exact absurd ((sepCharMatches_of_not_special p c
                (hlit p (List.mem_cons_self p ps))).mpr h1.symm) hpc

theorem dollarAt_iff (l : List Char) : dollarAt l = true ↔ l = [] ∨ l = ['\n'] := by
  unfold dollarAt
  simp [List.isEmpty_iff]

theorem append_eq_singleton (l1 l2 : List Char) (a : Char) (h : l1 ++ l2 = [a]) :
    (l1 = [] ∧ l2 = [a]) ∨ (l1 = [a] ∧ l2 = []) := by
  cases l1 with
  | nil => exact Or.inl ⟨rfl, h⟩
  | cons c cs =>
      rw [List.cons_append] at h
      injection h with h1 h2
      have h3 := List.append_eq_nil.mp h2
      refine Or.inr ⟨?_, h3.2⟩
      rw [h1, h3.1]

theorem takeWhile_append_of_all (p : Char → Bool) :
    ∀ e t : List Char, (∀ c ∈ e, p c = true) →
      (e ++ t).takeWhile p = e ++ t.takeWhile p := by
  intro e
  induction e with
  | nil => intro t _; simp
  | cons c cs ih =>
      intro t he
      rw [List.cons_append, List.takeWhile_cons_of_pos (he c (List.mem_cons_self c cs)),
        ih t (fun x hx => he x (List.mem_cons_of_mem c hx)), List.cons_append]

theorem dropWhile_append_of_all (p : Char → Bool) :
    ∀ e t : List Char, (∀ c ∈ e, p c = true) →
      (e ++ t).dropWhile p = t.dropWhile p := by
  intro e
  induction e with
  | nil => intro t _; simp
  | cons c cs ih =>
      intro t he
      rw [List.cons_append, List.dropWhile_cons_of_pos (he c (List.mem_cons_self c cs)),
        ih t (fun x hx => he x (List.mem_cons_of_mem c hx))]

theorem run_of_decomp (e t r2 : List Char) (hedig : ∀ c ∈ e, c.isDigit = true)
    (htd : t = [] ∨ t = ['\n']) (h4 : r2 = e ++ t) :
    r2.takeWhile Char.isDigit = e ∧ r2.dropWhile Char.isDigit = t := by
  subst h4
  rw [takeWhile_append_of_all Char.isDigit e t hedig,
    dropWhile_append_of_all Char.isDigit e t hedig]
  rcases htd with rfl | rfl
  · exact ⟨List.append_nil e, rfl⟩
  · constructor
    · rw [show (['\n'].takeWhile Char.isDigit) = [] from rfl, List.append_nil]
    · rfl

theorem good_of_decomp (e t r2 : List Char) (hene : e ≠ [])
    (hedig : ∀ c ∈ e, c.isDigit = true) (htd : t = [] ∨ t = ['\n'])
    (h4 : r2 = e ++ t) :
    (!(r2.takeWhile Char.isDigit).isEmpty && dollarAt (r2.dropWhile Char.isDigit)) = true := by
  obtain ⟨hrun, hdrop⟩ := run_of_decomp e t r2 hedig htd h4
  rw [hrun, hdrop, Bool.and_eq_true]
  constructor
  · cases e with
    | nil => exact absurd rfl hene
    | cons a l => rfl
  · exact (dollarAt_iff t).mpr htd

theorem run_empty_of_dollar (sep r2 r : List Char) (hr2 : r = sep ++ r2)
    (hd : r = [] ∨ r = ['\n']) : r2.takeWhile Char.isDigit = [] := by
  rcases hd with rfl | rfl
  · have h1 : r2 = [] := (List.append_eq_nil.mp hr2.symm).2
    rw [h1]
    rfl
  · rcases append_eq_singleton sep r2 '\n' hr2.symm with ⟨_, h2⟩ | ⟨_, h2⟩
    · rw [h2]
      rfl
    · rw [h2]
      rfl

theorem rest_decomp (base sep r r2 e t : List Char) (hr2 : r = sep ++ r2)
    (hs : base ++ r = base ++ sep ++ e ++ t) : r2 = e ++ t := by
  have h3 : base ++ r = base ++ (sep ++ (e ++ t)) := by
    rw [hs]
    simp [List.append_assoc]
  have h2 : r = sep ++ (e ++ t) := List.append_cancel_left h3
  exact List.append_cancel_left (hr2.symm.trans h2)

theorem dollar_of_eq (base r : List Char)
    (h : base ++ r = base ∨ base ++ r = base ++ ['\n']) : r = [] ∨ r = ['\n'] := by
  rcases h with h1 | h1
  · left
    exact List.append_cancel_left (show base ++ r = base ++ [] by rw [h1, List.append_nil])
  · right
    exact List.append_cancel_left h1

theorem eq_of_dollar (base r : List Char) (hd : r = [] ∨ r = ['\n']) :
    base ++ r = base ∨ base ++ r = base ++ ['\n'] := by
  rcases hd with rfl | rfl
  · exact Or.inl (List.append_nil base)
  · exact Or.inr rfl

theorem matchTail_iff (sep base : List Char) (hlit : ∀ c ∈ sep, isRegexSpecial c = false)
    (s : List Char) (os : Option Nat) :
    matchTail sep base s = some os ↔
      ((s = base ∨ s = base ++ ['\n']) ∧ os = none) ∨
      (∃ e t, e ≠ [] ∧ (∀ c ∈ e, c.isDigit = true) ∧ (t = [] ∨ t = ['\n']) ∧
        s = base ++ sep ++ e ++ t ∧ os = some (digitsVal e)) := by
  unfold matchTail
  by_cases hpre : base.isPrefixOf s
  · rw [if_pos hpre]
    obtain ⟨r, hr⟩ : ∃ r, base ++ r = s := List.isPrefixOf_iff_prefix.mp hpre
    subst hr
    rw [List.drop_left base r]
    cases hcs : consumeSep sep r with
    | none =>
        show (if dollarAt r = true then some none else none) = some os ↔ _
        by_cases hdol : dollarAt r = true
        · rw [if_pos hdol]
          constructor
          · intro h
            exact Or.inl ⟨eq_of_dollar base r ((dollarAt_iff r).mp hdol),
              (Option.some.inj h).symm⟩
          · rintro (⟨_, rfl⟩ | ⟨e, t, _, _, _, hs, _⟩)
            · rfl
            · exfalso
              have h2 : r = sep ++ (e ++ t) := by
                have h3 : base ++ r = base ++ (sep ++ (e ++ t)) := by
                  rw [hs]
                  simp [List.append_assoc]
                exact List.append_cancel_left h3
              rw [(consumeSep_literal sep hlit r (e ++ t)).mpr h2] at hcs
              exact Option.noConfusion hcs
        · rw [if_neg hdol]
          constructor
          · intro h
            exact Option.noConfusion h
          · rintro (⟨hd1, _⟩ | ⟨e, t, _, _, _, hs, _⟩)
            · exact absurd ((dollarAt_iff r).mpr (dollar_of_eq base r hd1)) hdol
            · have h2 : r = sep ++ (e ++ t) := by
                have h3 : base ++ r = base ++ (sep ++ (e ++ t)) := by
                  rw [hs]
                  simp [List.append_assoc]
                exact List.append_cancel_left h3
              rw [(consumeSep_literal sep hlit r (e ++ t)).mpr h2] at hcs
              exact Option.noConfusion hcs
    | some r2 =>
        have hr2 : r = sep ++ r2 := (consumeSep_literal sep hlit r r2).mp hcs
        show (if (!(r2.takeWhile Char.isDigit).isEmpty
              && dollarAt (r2.dropWhile Char.isDigit)) = true
            then some (some (digitsVal (r2.takeWhile Char.isDigit)))
            else if dollarAt r = true then some none else none) = some os ↔ _
        by_cases hgood : (!(r2.takeWhile Char.isDigit).isEmpty
            && dollarAt (r2.dropWhile Char.isDigit)) = true
        · rw [if_pos hgood]
          have hparts : (!(r2.takeWhile Char.isDigit).isEmpty) = true ∧
              dollarAt (r2.dropWhile Char.isDigit) = true := by
            rw [← Bool.and_eq_true]
            exact hgood
          have hrunne : r2.takeWhile Char.isDigit ≠ [] := by
            intro hh
            rw [hh] at hparts
            exact absurd hparts.1 (by decide)
          constructor
          · intro h
            refine Or.inr ⟨r2.takeWhile Char.isDigit, r2.dropWhile Char.isDigit, hrunne,
              fun c hc => List.mem_takeWhile_imp hc,
              (dollarAt_iff _).mp hparts.2, ?_, (Option.some.inj h).symm⟩
            conv_lhs => rw [hr2, ← List.takeWhile_append_dropWhile Char.isDigit r2]
            simp [List.append_assoc]
          · rintro (⟨hd1, _⟩ | ⟨e, t, hene, hedig, htd, hs, rfl⟩)
            · exact absurd (run_empty_of_dollar sep r2 r hr2 (dollar_of_eq base r hd1))
                hrunne
            · have h4 : r2 = e ++ t := rest_decomp base sep r r2 e t hr2 hs
              rw [(run_of_decomp e t r2 hedig htd h4).1]
        · rw [if_neg hgood]
          by_cases hdol : dollarAt r = true
          · rw [if_pos hdol]
            constructor
            · intro h
              exact Or.inl ⟨eq_of_dollar base r ((dollarAt_iff r).mp hdol),
                (Option.some.inj h).symm⟩
            · rintro (⟨_, rfl⟩ | ⟨e, t, hene, hedig, htd, hs, _⟩)
              · rfl
              · exact absurd (good_of_decomp e t r2 hene hedig htd
                  (rest_decomp base sep r r2 e t hr2 hs)) hgood
          · rw [if_neg hdol]
            constructor
            · intro h
              exact Option.noConfusion h
            · rintro (⟨hd1, _⟩ | ⟨e, t, hene, hedig, htd, hs, _⟩)
              · exact absurd ((dollarAt_iff r).mpr (dollar_of_eq base r hd1)) hdol
              · exact absurd (good_of_decomp e t r2 hene hedig htd
                  (rest_decomp base sep r r2 e t hr2 hs)) hgood
  · rw [if_neg hpre]
    constructor
    · intro h
      exact Option.noConfusion h
    · rintro (⟨hd1, _⟩ | ⟨e, t, _, _, _, hs, _⟩)
      · rcases hd1 with h1 | h1
        · exact absurd (List.isPrefixOf_iff_prefix.mpr (by rw [h1])) hpre
        · exact absurd (List.isPrefixOf_iff_prefix.mpr
            (by rw [h1]; exact List.prefix_append base ['\n'])) hpre
      · refine absurd (List.isPrefixOf_iff_prefix.mpr ?_) hpre
        rw [hs, (show base ++ sep ++ e ++ t = base ++ (sep ++ (e ++ t)) by
          simp [List.append_assoc])]
        exact List.prefix_append base _

theorem tryPrefix_none (sep base name : List Char) :
    ∀ k, tryPrefix sep base name k = none →
      matchTail sep base name = none ∧
      ∀ j, 1 ≤ j → j ≤ k → ∀ r, consumeSep sep (name.drop j) = some r →
        matchTail sep base r = none := by
  intro k
  induction k with
  | zero =>
      intro h
      constructor
      · exact Option.map_eq_none'.mp h
      · intro j hj1 hj0 r _
        exact absurd hj0 (by omega)
  | succ k ih =>
      intro h
      unfold tryPrefix at h
      cases hcs : consumeSep sep (name.drop (k + 1)) with
      | none =>
          rw [hcs] at h
          obtain ⟨h1, h2⟩ := ih h
          refine ⟨h1, ?_⟩
          intro j hj1 hjk r hr
          by_cases hje : j = k + 1
          · subst hje
            rw [hr] at hcs
            exact Option.noConfusion hcs
          · exact h2 j hj1 (by omega) r hr
      | some r0 =>
          simp only [hcs] at h
          cases hmt : matchTail sep base r0 with
          | some s =>
              simp only [hmt] at h
              exact Option.noConfusion h
          | none =>
              simp only [hmt] at h
              obtain ⟨h1, h2⟩ := ih h
              refine ⟨h1, ?_⟩
              intro j hj1 hjk r hr
              by_cases hje : j = k + 1
              · subst hje
                rw [hcs] at hr
                rw [← Option.some.inj hr]
                exact hmt
              · exact h2 j hj1 (by omega) r hr

theorem take_digitRun (name : List Char) (j : Nat) (hj1 : 1 ≤ j)
    (hj : j ≤ digitRunLen name) :
    name.take j ≠ [] ∧ ∀ c ∈ name.take j, c.isDigit = true := by
  have hlen : digitRunLen name ≤ name.length := by
    unfold digitRunLen
    exact (List.takeWhile_prefix Char.isDigit).sublist.length_le
  constructor
  · have hlt : (name.take j).length = j := by
      rw [List.length_take]
      omega
    intro hnil
    rw [hnil] at hlt
    simp at hlt
    omega
  · intro c hc
    have hts : name.take j = (name.takeWhile Char.isDigit).take j := by
      conv_lhs => rw [← List.takeWhile_append_dropWhile Char.isDigit name]
      exact List.take_append_of_le_length hj
    rw [hts] at hc
    exact List.mem_takeWhile_imp (List.take_subset j _ hc)

theorem digitRun_ge (d r : List Char) (hd : ∀ c ∈ d, c.isDigit = true) :
    d.length ≤ digitRunLen (d ++ r) := by
  unfold digitRunLen
  induction d with
  | nil => simp
  | cons c t ih =>
      have hc : c.isDigit = true := hd c (List.mem_cons_self c t)
      rw [List.cons_append, List.takeWhile_cons_of_pos hc]
      simp only [List.length_cons]
      exact Nat.succ_le_succ (ih (fun x hx => hd x (List.mem_cons_of_mem c hx)))

theorem tryPrefix_some_shape (sep base name : List Char)
    (hlit : ∀ c ∈ sep, isRegexSpecial c = false) :
    ∀ k, k ≤ digitRunLen name → ∀ v, tryPrefix sep base name k = some v →
      specShapeNL sep base name := by
  intro k
  induction k with
  | zero =>
      intro _ v h
      unfold tryPrefix at h
      cases hmt : matchTail sep base name with
      | none =>
          rw [hmt] at h
          exact Option.noConfusion h
      | some os =>
          rcases (matchTail_iff sep base hlit name os).mp hmt with
            ⟨hs1 | hs1, _⟩ | ⟨e, t, hene, hedig, htd, hs, _⟩
          · exact Or.inl (Or.inl hs1)
          · exact Or.inr ⟨base, hs1, Or.inl rfl⟩
          · rcases htd with rfl | rfl
            · refine Or.inl (Or.inr (Or.inr (Or.inl ⟨e, ⟨hene, hedig⟩, ?_⟩)))
              rw [hs, List.append_nil]
            · exact Or.inr ⟨base ++ sep ++ e, hs,
                Or.inr (Or.inr (Or.inl ⟨e, ⟨hene, hedig⟩, rfl⟩))⟩
  | succ k ih =>
      intro hk v h
      unfold tryPrefix at h
      cases hcs : consumeSep sep (name.drop (k + 1)) with
      | none =>
          rw [hcs] at h
          exact ih (by omega) v h
      | some r =>
          simp only [hcs] at h
          cases hmt : matchTail sep base r with
          | none =>
              simp only [hmt] at h
              exact ih (by omega) v h
          | some s =>
              have hdk : name = name.take (k + 1) ++ (sep ++ r) := by
                conv_lhs => rw [← List.take_append_drop (k + 1) name]
                rw [(consumeSep_literal sep hlit _ r).mp hcs]
              obtain ⟨htne, htdig⟩ := take_digitRun name (k + 1) (by omega) hk
              rcases (matchTail_iff sep base hlit r s).mp hmt with
                ⟨hr1 | hr1, _⟩ | ⟨e2, t, he2ne, he2dig, htd, hrt, _⟩
              · rw [hr1] at hdk
                refine Or.inl (Or.inr (Or.inl ⟨name.take (k + 1), ⟨htne, htdig⟩, ?_⟩))
                conv_lhs => rw [hdk]
                rw [List.append_assoc]
              · rw [hr1] at hdk
                refine Or.inr ⟨name.take (k + 1) ++ sep ++ base, ?_,
                  Or.inr (Or.inl ⟨name.take (k + 1), ⟨htne, htdig⟩, rfl⟩)⟩
                conv_lhs => rw [hdk]
                simp [List.append_assoc]
              · rcases htd with rfl | rfl
                · rw [hrt, List.append_nil] at hdk
                  refine Or.inl (Or.inr (Or.inr (Or.inr
                    ⟨name.take (k + 1), e2, ⟨htne, htdig⟩, ⟨he2ne, he2dig⟩, ?_⟩)))
                  conv_lhs => rw [hdk]
                  simp [List.append_assoc]
                · rw [hrt] at hdk
                  refine Or.inr ⟨name.take (k + 1) ++ sep ++ base ++ sep ++ e2, ?_,
                    Or.inr (Or.inr (Or.inr ⟨name.take (k + 1), e2, ⟨htne, htdig⟩,
                      ⟨he2ne, he2dig⟩, rfl⟩))⟩
                  conv_lhs => rw [hdk]
                  simp [List.append_assoc]

theorem prefix_case_contra (sep base name d Y : List Char)
    (hlit : ∀ c ∈ sep, isRegexSpecial c = false)
    (hdne : d ≠ []) (hddig : ∀ c ∈ d, c.isDigit = true)
    (heq2 : name = d ++ (sep ++ Y))
    (hY : matchTail sep base Y ≠ none)
    (hfail : ∀ j, 1 ≤ j → j ≤ digitRunLen name → ∀ r,
      consumeSep sep (name.drop j) = some r → matchTail sep base r = none) : False := by
  have hj1 : 1 ≤ d.length := List.length_pos.mpr hdne
  have hjk : d.length ≤ digitRunLen name := by
    rw [heq2]
    exact digitRun_ge d _ hddig
  have hdrop : name.drop d.length = sep ++ Y := by
    rw [heq2]
    exact List.drop_left d _
  have hcs : consumeSep sep (name.drop d.length) = some Y := by
    rw [hdrop]
    exact (consumeSep_literal sep hlit _ Y).mpr rfl
  exact hY (hfail d.length hj1 hjk Y hcs)

/-- C2 counterexample: with separator `"."` (a regex metacharacter, spliced
into the pattern unescaped) and `dir_base = "data"`, the code's pattern
matches `"1xdata"` — the `'.'` matches the `'x'` — although `"1xdata"` is not
of the claimed shape `[number][sep]base[sep][number]` with the separator
matched literally. -/
theorem dot_separator_counterexample :
    (reMatch ['.'] ['d', 'a', 't', 'a'] ['1', 'x', 'd', 'a', 't', 'a']).isSome = true ∧
    ¬ specShape ['.'] ['d', 'a', 't', 'a'] ['1', 'x', 'd', 'a', 't', 'a'] := by
  constructor
  · decide
  · intro h
    rcases h with hbase | ⟨d, ⟨hdne, _⟩, heq⟩ | ⟨d, ⟨hdne, _⟩, heq⟩ |
      ⟨d, e2, ⟨hdne, _⟩, ⟨hene, _⟩, heq⟩
    · exact absurd hbase (by decide)
    · have hlen := congrArg List.length heq
      simp [List.length_append] at hlen
      have hd1 : d.length = 1 := by omega
      obtain ⟨c, rfl⟩ := List.length_eq_one.mp hd1
      rw [show ([c] ++ ['.'] ++ ['d', 'a', 't', 'a'])
          = c :: '.' :: 'd' :: 'a' :: 't' :: 'a' :: [] from rfl] at heq
      injection heq with _ h2
      injection h2 with h2a _
      exact absurd h2a (by decide)
    · rw [show (['d', 'a', 't', 'a'] ++ ['.'] ++ d)
          = 'd' :: 'a' :: 't' :: 'a' :: '.' :: d from rfl] at heq
      injection heq with h1 _
      exact absurd h1 (by decide)
    · have hlen := congrArg List.length heq
      simp [List.length_append] at hlen
      have hd0 : d.length = 0 := by omega
      exact hdne (List.length_eq_zero.mp hd0)

/-- C2 amended: the separator is spliced into the pattern as a regular
expression fragment, not escaped, and Python's `$` also matches just before a
trailing newline.  For every separator containing no regex metacharacter,
every `dir_base`, and every all-ASCII name, the pattern accepts the name
exactly when it has the shape optional `<number><separator>`, then the
literal `dir_base`, then optional `<separator><number>`, possibly followed by
one trailing newline — never a name that merely contains `dir_base` as a
substring otherwise.  For a separator containing a metacharacter such as
`"."` the separator is not matched literally and other names can be accepted;
on non-ASCII names Python's `\d` additionally accepts non-ASCII Unicode
decimal digits. -/
theorem pattern_matches_exactly_shape (sep base name : List Char)
    (hlit : ∀ c ∈ sep, isRegexSpecial c = false)
    (_hascii : ∀ c ∈ name, c.toNat < 128) :
    (reMatch sep base name).isSome = true ↔ specShapeNL sep base name := by
  constructor
  · intro h
    obtain ⟨v, hv⟩ := Option.isSome_iff_exists.mp h
    exact tryPrefix_some_shape sep base name hlit (digitRunLen name) le_rfl v hv
  · intro hshape
    by_contra hns
    have hnone : reMatch sep base name = none := by
      cases hr : reMatch sep base name with
      | none => rfl
      | some v =>
          rw [hr] at hns
          exact absurd rfl hns
    obtain ⟨hmt, hfail⟩ := tryPrefix_none sep base name (digitRunLen name) hnone
    rcases hshape with hs | ⟨core, hnc, hs⟩
    · rcases hs with hbase | ⟨d, ⟨hdne, hddig⟩, heq⟩ | ⟨d, ⟨hdne, hddig⟩, heq⟩ |
        ⟨d, e2, ⟨hdne, hddig⟩, ⟨hene, hedig⟩, heq⟩
      · have h1 : matchTail sep base name = some none :=
          (matchTail_iff sep base hlit name none).mpr (Or.inl ⟨Or.inl hbase, rfl⟩)
        rw [h1] at hmt
        exact Option.noConfusion hmt
      · refine prefix_case_contra sep base name d base hlit hdne hddig ?_ ?_ hfail
        · rw [heq, List.append_assoc]
        · rw [(matchTail_iff sep base hlit base none).mpr (Or.inl ⟨Or.inl rfl, rfl⟩)]
          exact fun hh => Option.noConfusion hh
      · have h1 : matchTail sep base name = some (some (digitsVal d)) :=
          (matchTail_iff sep base hlit name (some (digitsVal d))).mpr
            (Or.inr ⟨d, [], hdne, hddig, Or.inl rfl, by rw [heq, List.append_nil], rfl⟩)
        rw [h1] at hmt
        exact Option.noConfusion hmt
      · refine prefix_case_contra sep base name d (base ++ sep ++ e2)
          hlit hdne hddig ?_ ?_ hfail
        · rw [heq]
          simp [List.append_assoc]
        · rw [(matchTail_iff sep base hlit (base ++ sep ++ e2)
            (some (digitsVal e2))).mpr
            (Or.inr ⟨e2, [], hene, hedig, Or.inl rfl, by rw [List.append_nil], rfl⟩)]
          exact fun hh => Option.noConfusion hh
    · rcases hs with hbase | ⟨d, ⟨hdne, hddig⟩, heq⟩ | ⟨d, ⟨hdne, hddig⟩, heq⟩ |
        ⟨d, e2, ⟨hdne, hddig⟩, ⟨hene, hedig⟩, heq⟩
      · have h1 : matchTail sep base name = some none :=
          (matchTail_iff sep base hlit name none).mpr
            (Or.inl ⟨Or.inr (by rw [hnc, hbase]), rfl⟩)
        rw [h1] at hmt
        exact Option.noConfusion hmt
      · refine prefix_case_contra sep base name d (base ++ ['\n'])
          hlit hdne hddig ?_ ?_ hfail
        · rw [hnc, heq]
          simp [List.append_assoc]
        · rw [(matchTail_iff sep base hlit (base ++ ['\n']) none).mpr
            (Or.inl ⟨Or.inr rfl, rfl⟩)]
          exact fun hh => Option.noConfusion hh
      · have h1 : matchTail sep base name = some (some (digitsVal d)) :=
          (matchTail_iff sep base hlit name (some (digitsVal d))).mpr
            (Or.inr ⟨d, ['\n'], hdne, hddig, Or.inr rfl, by rw [hnc, heq], rfl⟩)
        rw [h1] at hmt
        exact Option.noConfusion hmt
      · refine prefix_case_contra sep base name d (base ++ sep ++ e2 ++ ['\n'])
          hlit hdne hddig ?_ ?_ hfail
        · rw [hnc, heq]
          simp [List.append_assoc]
        · rw [(matchTail_iff sep base hlit (base ++ sep ++ e2 ++ ['\n'])
            (some (digitsVal e2))).mpr
            (Or.inr ⟨e2, ['\n'], hene, hedig, Or.inr rfl, rfl, rfl⟩)]
          exact fun hh => Option.noConfusion hh

/-- C2 amended witness: with the literal separator `"-"` and
`dir_base = "data"`, the specification's round-trip example `"3-data-2"` is
of the claimed shape, obtained from the fact that the code's pattern matches
it. -/
theorem pattern_matches_exactly_shape_witness :
    specShapeNL ['-'] ['d', 'a', 't', 'a'] ['3', '-', 'd', 'a', 't', 'a', '-', '2'] := by
  exact (pattern_matches_exactly_shape ['-'] ['d', 'a', 't', 'a']
    ['3', '-', 'd', 'a', 't', 'a', '-', '2'] (by decide) (by decide)).mp (by decide)

end Smartdirs
